import Mathlib

/-!
Shallow embedding of the binlog storage engine (src/binlog/connection.py,
src/binlog/writer.py) and verification of the frozen claims about its
specification.

Machine-level conventions of the embedding:
* Domain values of an entry are modelled by natural numbers; serialization
  (binlog/serializer.py) is a bijection between values and byte strings
  (spec 4.A round-trip law), so it is elided.
* The LMDB sub-databases are modelled extensionally: `config` by its single
  used key `next_event_id`, `entries` by an association list `pk -> fields`
  (append-mode put succeeds exactly when the new key is strictly greater
  than the current maximum, spec 3), each dupsort index sub-database by a
  list of `(key, pk)` pairs.
* A `with env.begin(write=True) as txn:` scope commits the tentative state
  on normal exit and aborts (rolls the state back) when an exception
  escapes the scope; each engine operation is therefore split into a
  `..._body` (the code run inside the transaction) and a wrapper that
  commits on `Except.ok` and restores the pre-state on `Except.error`.
-/

/-- Field mapping of an entry: `model(**kwargs)` keyword dict. -/
abbrev Fields := List (String × Nat)

/-- An entry of the log: a field mapping plus the metadata attributes `pk`
and `saved` (spec 3).  Unsaved entries carry the defaults `pk = 0`,
`saved = false`. -/
structure Entry where
  fields : Fields
  pk : Nat
  saved : Bool
deriving DecidableEq, Repr

/-- Embeds `entry.get(index_name)`: lookup of a field, `none` when absent. -/
def Entry.get (e : Entry) (name : String) : Option Nat :=
  lookupField e.fields name
where
  lookupField : Fields → String → Option Nat
    | [], _ => none
    | (k, v) :: rest, n => if k = n then some v else lookupField rest n

/-- The model descriptor consumed by the connection: the declared indexes,
each with its `mandatory` flag (spec 6).  Index sub-database names are
produced from the index name by an injective template
(`_get_index_name`), so indexes are keyed here by their name directly. -/
structure Model where
  indexes : List (String × Bool)
deriving DecidableEq, Repr

/-- Modelled from the spec: `binlog/registry.py` is not under src.  Spec 3
and 4.B describe the Registry as a compact representation of a set of
non-negative integers with union, intersection, membership and iteration
in ascending order; it is modelled as a finite set of naturals. -/
abbrev Registry := Finset Nat

/-- The checkpoints sub-database of the readers environment:
`reader_name -> Registry` (spec 3). -/
abbrev Checkpoints := List (String × Registry)

/-- The data environment: the `config` sub-database (modelled by its single
used key `next_event_id`, absent = `none`), the `entries` sub-database and
one dupsort sub-database per declared index. -/
structure DataStore where
  nextEventId : Option Nat
  entries : List (Nat × Fields)
  indexes : List (String × List (Nat × Nat))
deriving DecidableEq, Repr

/-- Error kinds surfaced by the engine (spec 7). -/
inductive BErr where
  | integrity
  | readerDoesNotExist
  | invalidValue
  | notFound
  | inUse
deriving DecidableEq, Repr

/-- Keys of an association list (the key set of a sub-database). -/
def keysOf {α β : Type} (l : List (α × β)) : List α := l.map Prod.fst

/-- Maximum key currently present in the entries sub-database. -/
def entriesMaxKey : List (Nat × Fields) → Option Nat
  | [] => none
  | (k, _) :: rest =>
    match entriesMaxKey rest with
    | none => some k
    | some m => some (max k m)

/-- Embeds `cursor.put(key, value, overwrite=False, append=True)` on the entries
sub-database: succeeds (and appends) exactly when the database is empty or
the key is strictly greater than the current maximum key; otherwise it
returns `false` and leaves the database unchanged (spec 3). -/
def entriesPutB (es : List (Nat × Fields)) (k : Nat) (v : Fields) :
    Bool × List (Nat × Fields) :=
  match entriesMaxKey es with
  | none => (true, es ++ [(k, v)])
  | some m => if m < k then (true, es ++ [(k, v)]) else (false, es)

/-- Embeds `cursor.pop(key)` on the entries sub-database: returns the stored value
and the database without that binding, or `none` when the key is absent. -/
def entriesPop : List (Nat × Fields) → Nat → Option (Fields × List (Nat × Fields))
  | [], _ => none
  | (k, v) :: rest, pk =>
    if k = pk then some (v, rest)
    else
      match entriesPop rest pk with
      | some (v2, rest2) => some (v2, (k, v) :: rest2)
      | none => none

/-- Embeds `cursor.putmulti(items, dupdata=False, overwrite=False, append=True)`:
every item is consumed; an item is added when its append-mode put
succeeds.  Returns `(consumed, added, database)`. -/
def putmulti (es : List (Nat × Fields)) :
    List (Nat × Fields) → Nat × Nat × List (Nat × Fields)
  | [] => (0, 0, es)
  | (k, v) :: rest =>
    let step := entriesPutB es k v
    let r := putmulti step.2 rest
    (r.1 + 1, (if step.1 then r.2.1 + 1 else r.2.1), r.2.2)

/-- Contents of one index sub-database, empty when never written. -/
def getIdx (st : DataStore) (name : String) : List (Nat × Nat) :=
  getIdxAux st.indexes name
where
  getIdxAux : List (String × List (Nat × Nat)) → String → List (Nat × Nat)
    | [], _ => []
    | (n, db) :: rest, name => if n = name then db else getIdxAux rest name

/-- Replace the contents of one index sub-database. -/
def setIdx (st : DataStore) (name : String) (db : List (Nat × Nat)) : DataStore :=
  { st with indexes := setIdxAux st.indexes name db }
where
  setIdxAux : List (String × List (Nat × Nat)) → String → List (Nat × Nat) →
      List (String × List (Nat × Nat))
    | [], name, db => [(name, db)]
    | (n, d) :: rest, name, db =>
      if n = name then (name, db) :: rest else (n, d) :: setIdxAux rest name db

/-- Embeds `cursor.put(key, value, overwrite=True, dupdata=True)` on a dupsort
index sub-database: the `(key, value)` pair is inserted unless already
present. -/
def idxPut (db : List (Nat × Nat)) (k v : Nat) : List (Nat × Nat) :=
  if (k, v) ∈ db then db else db ++ [(k, v)]

/-- Embeds `cursor.delete(key, value)` on a dupsort index sub-database: the
`(key, value)` pair is removed. -/
def idxDelete (db : List (Nat × Nat)) (k v : Nat) : List (Nat × Nat) :=
  db.erase (k, v)

/-- Embeds `Connection._get_next_event_idx`: `cursor.get('next_event_id', default=0)`. -/
def Connection.get_next_event_idx (st : DataStore) : Nat :=
  st.nextEventId.getD 0

/-- Embeds `Connection._update_next_event_idx`: `cursor.put('next_event_id', value,
overwrite=True)`. -/
def Connection.update_next_event_idx (st : DataStore) (value : Nat) : DataStore :=
  { st with nextEventId := some value }

/-- Embeds `Connection._index`: for every declared index, a missing mandatory key
raises ValueError, a present key inserts the `(key, pk)` pair. -/
def Connection.index (st : DataStore) (entry : Entry) :
    List (String × Bool) → Except BErr DataStore
  | [] => .ok st
  | (index_name, mandatory) :: rest =>
    match entry.get index_name with
    | none =>
      if mandatory then .error .invalidValue
      else Connection.index st entry rest
    | some key =>
      Connection.index
        (setIdx st index_name (idxPut (getIdx st index_name) key entry.pk))
        entry rest

/-- Embeds `Connection._unindex`: for every declared index with a present key,
delete the `(key, pk)` pair. -/
def Connection.unindex (st : DataStore) (entry : Entry) :
    List (String × Bool) → DataStore
  | [] => st
  | (index_name, _) :: rest =>
    match entry.get index_name with
    | none => Connection.unindex st entry rest
    | some key =>
      Connection.unindex
        (setIdx st index_name (idxDelete (getIdx st index_name) key entry.pk))
        entry rest

/-- Body of `Connection.create` as run inside the data transaction: read the
counter, append-mode put of the fresh entry under it, advance the counter
(unconditionally), then either mark and index the entry or raise
IntegrityError. -/
def Connection.create_body (m : Model) (st : DataStore) (kwargs : Fields) :
    Except BErr (Entry × DataStore) :=
  let next_idx := Connection.get_next_event_idx st
  let entry : Entry := { fields := kwargs, pk := 0, saved := false }
  let put := entriesPutB st.entries next_idx entry.fields
  let st2 := Connection.update_next_event_idx { st with entries := put.2 } (next_idx + 1)
  if put.1 then
    let entry2 := { entry with pk := next_idx, saved := true }
    match Connection.index st2 entry2 m.indexes with
    | .ok st3 => .ok (entry2, st3)
    | .error err => .error err
  else
    .error .integrity

/-- Embeds `Connection.create`: the body runs inside `with self.data(write=True)`;
the transaction commits on success and aborts on an escaping exception,
restoring the pre-call state. -/
def Connection.create (m : Model) (st : DataStore) (kwargs : Fields) :
    Except BErr Entry × DataStore :=
  match Connection.create_body m st kwargs with
  | .ok (e, st2) => (.ok e, st2)
  | .error err => (.error err, st)

/-- Body of `Connection.bulk_create`: enumerate the entries with consecutive
primary keys from the counter, multi-put them in append mode, advance the
counter by the consumed count, and raise IntegrityError when some key
already existed. -/
def Connection.bulk_create_body (st : DataStore) (entries : List Fields) :
    Except BErr (Nat × DataStore) :=
  let next_idx := Connection.get_next_event_idx st
  let raw := List.enumFrom next_idx entries
  let r := putmulti st.entries raw
  let consumed := r.1
  let added := r.2.1
  let st2 := Connection.update_next_event_idx { st with entries := r.2.2 } (next_idx + consumed)
  if consumed ≠ added then .error .integrity else .ok (added, st2)

/-- Embeds `Connection.bulk_create` with the transactional commit/abort wrapper. -/
def Connection.bulk_create (st : DataStore) (entries : List Fields) :
    Except BErr Nat × DataStore :=
  match Connection.bulk_create_body st entries with
  | .ok (n, st2) => (.ok n, st2)
  | .error err => (.error err, st)

/-- Embeds `cursor.get(name, default=None)` on the checkpoints sub-database. -/
def cpGet : Checkpoints → String → Option Registry
  | [], _ => none
  | (m, s) :: rest, n => if m = n then some s else cpGet rest n

/-- Embeds `cursor.put(name, value, overwrite=True)` on the checkpoints
sub-database. -/
def cpPut : Checkpoints → String → Registry → Checkpoints
  | [], n, r => [(n, r)]
  | (m, s) :: rest, n, r =>
    if m = n then (n, r) :: rest else (m, s) :: cpPut rest n r

/-- Embeds `Connection.reader(name)`: a named reader loads the stored registry and
fails with ReaderDoesNotExist when the name is absent; an anonymous reader
carries no registry.  The result models `Reader(self, name, registry)`. -/
def Connection.reader (cps : Checkpoints) (name : Option String) :
    Except BErr (Option String × Option Registry) :=
  match name with
  | some n =>
    match cpGet cps n with
    | none => .error .readerDoesNotExist
    | some registry => .ok (some n, some registry)
  | none => .ok (none, none)

/-- Embeds `Connection.register_reader`: insert an empty registry without
overwriting; the boolean reports whether the insert happened. -/
def Connection.register_reader (cps : Checkpoints) (name : String) :
    Bool × Checkpoints :=
  match cpGet cps name with
  | some _ => (false, cps)
  | none => (true, cps ++ [(name, (∅ : Registry))])

/-- Embeds `Connection.save_registry`: replace the stored registry (default empty)
with its union with the new one. -/
def Connection.save_registry (cps : Checkpoints) (name : String)
    (new_registry : Registry) : Checkpoints :=
  let stored_registry := (cpGet cps name).getD (∅ : Registry)
  cpPut cps name (stored_registry ∪ new_registry)

/-- Embeds `Connection.list_readers`: the registered reader names. -/
def Connection.list_readers (cps : Checkpoints) : List String :=
  keysOf cps

/-- Modelled from the spec: `binlog/reader.py` is not under src.  Spec 4.F
gives `is_acked(entry_or_pk)` as `pk ∈ registry`; this helper runs the
loop of `Connection.remove` over the registered readers and reports
whether every one of them has acknowledged the primary key. -/
def allAcked (cps : Checkpoints) (pk : Nat) : List String → Bool
  | [] => true
  | n :: rest =>
    if pk ∈ (cpGet cps n).getD (∅ : Registry) then allAcked cps pk rest else false

/-- Embeds `Connection.remove`: fail with ReaderDoesNotExist when no reader is
registered; return `false` as soon as some reader has not acknowledged the
entry; otherwise pop the entry and, when it was present, un-index it. -/
def Connection.remove (m : Model) (st : DataStore) (cps : Checkpoints)
    (entry : Entry) : Except BErr (Bool × DataStore) :=
  let readers := Connection.list_readers cps
  if readers.isEmpty then .error .readerDoesNotExist
  else if allAcked cps entry.pk readers then
    match entriesPop st.entries entry.pk with
    | some (_, es2) => .ok (true, Connection.unindex { st with entries := es2 } entry m.indexes)
    | none => .ok (false, st)
  else
    .ok (false, st)

/-- Modelled from the spec: `binlog/model.py` is not under src.
`self.model(**value)` rebuilds a model instance from the stored field
mapping; per spec 3 entries are created unsaved, so the metadata
attributes carry their defaults. -/
def Model.ofStored (fields : Fields) : Entry :=
  { fields := fields, pk := 0, saved := false }

/-- Embeds `reduce(op.and_, registries)` over a non-empty list. -/
def commonAcked : List Registry → Registry
  | [] => (∅ : Registry)
  | r :: rest => rest.foldl (fun a b => a ∩ b) r

/-- The loop of `Connection.purge` over the common acknowledged primary
keys: pop each one; a hit bumps `removed` and un-indexes the rebuilt
entry, a miss resets `errors` to zero. -/
def Connection.purge_loop (m : Model) :
    List Nat → DataStore → Nat → Nat → Nat × Nat × DataStore
  | [], st, removed, errors => (removed, errors, st)
  | pk :: rest, st, removed, errors =>
    match entriesPop st.entries pk with
    | some (value, es2) =>
      Connection.purge_loop m rest
        (Connection.unindex { st with entries := es2 } (Model.ofStored value) m.indexes)
        (removed + 1) errors
    | none => Connection.purge_loop m rest st removed 0

/-- The registries snapshot of `Connection.purge`:
`[self.reader(name).registry for name in self.list_readers()]`. -/
def Connection.purge_registries (cps : Checkpoints) : List Registry :=
  (Connection.list_readers cps).map (fun n => (cpGet cps n).getD (∅ : Registry))

/-- Embeds `Connection.purge`: intersect all stored registries and pop every common
primary key in ascending order (spec 4.B: Registry iteration is
ascending), counting the hits. -/
def Connection.purge (m : Model) (st : DataStore) (cps : Checkpoints) :
    (Nat × Nat) × DataStore :=
  let registries := Connection.purge_registries cps
  if registries.isEmpty then ((0, 0), st)
  else
    let common_acked := commonAcked registries
    let r := Connection.purge_loop m (common_acked.sort (· ≤ ·)) st 0 0
    ((r.1, r.2.1), r.2.2)

/-!
The segmented log writer (src/binlog/writer.py).  Segment files are named
`LOG_PREFIX + '.' + n`; the naming template is injective in `n`, so
segments are keyed here by their number.  The `logindex` recno database is
a list of `(recno, segment_number)` pairs in recno order; `append` on a
recno database assigns the successor of the last recno.  Closing a
Berkeley DB handle has no effect on the stored state, so `close()` calls
are modelled by dropping the handle. -/

/-- Payload of one appended record (`pickle.dumps(data)` is a faithful
encoding, so the payload is kept abstractly as a natural number). -/
abbrev Data := Nat

/-- State of `Writer`: the logindex recno database, the per-segment record
lists, the open current log handle and the deferred-rotation flag. -/
structure WriterState where
  logindex : List (Nat × Nat)
  segments : List (Nat × List Data)
  currentLog : Option Nat
  nextWillCreateLog : Bool
  maxLogEvents : Nat
deriving DecidableEq, Repr

/-- Embeds `Writer.__init__` on a fresh environment: empty logindex, no segment
files, no open log, rotation flag clear. -/
def Writer.fresh (max_log_events : Nat) : WriterState :=
  { logindex := []
    segments := []
    currentLog := none
    nextWillCreateLog := false
    maxLogEvents := max_log_events }

/-- Records of one segment file, empty when the file does not exist. -/
def getSeg (w : WriterState) (n : Nat) : List Data :=
  getSegAux w.segments n
where
  getSegAux : List (Nat × List Data) → Nat → List Data
    | [], _ => []
    | (k, recs) :: rest, n => if k = n then recs else getSegAux rest n

/-- Replace the records of one segment file. -/
def setSeg (w : WriterState) (n : Nat) (recs : List Data) : WriterState :=
  { w with segments := setSegAux w.segments n recs }
where
  setSegAux : List (Nat × List Data) → Nat → List Data →
      List (Nat × List Data)
    | [], n, recs => [(n, recs)]
    | (k, r) :: rest, n, recs =>
      if k = n then (n, recs) :: rest else (k, r) :: setSegAux rest n recs

/-- Embeds `db.DB(self.env); log.open(name, None, db.DB_RECNO, db.DB_CREATE)`:
create the segment file when it does not exist yet. -/
def ensureSeg (w : WriterState) (n : Nat) : WriterState :=
  if n ∈ keysOf w.segments then w
  else { w with segments := w.segments ++ [(n, [])] }

/-- Embeds `self.logindex.append(name)`: recno append assigns the successor of the
last recno. -/
def logindexAppend (w : WriterState) (n : Nat) : WriterState :=
  let last_recno := ((w.logindex.getLast?).map Prod.fst).getD 0
  { w with logindex := w.logindex ++ [(last_recno + 1, n)] }

/-- Embeds `Writer.set_current_log`: create segment 1 when the logindex is empty;
otherwise open the last registered segment and, when it is already full
(its last record index reaches `max_log_events`), register and open the
next segment.  The opened segment becomes the current log. -/
def Writer.set_current_log (w : WriterState) : WriterState :=
  match w.logindex.getLast? with
  | none =>
    let w1 := ensureSeg (logindexAppend w 1) 1
    { w1 with currentLog := some 1 }
  | some (idx, name) =>
    let w1 := ensureSeg w name
    let recs := getSeg w1 name
    if 1 ≤ recs.length ∧ w.maxLogEvents ≤ recs.length then
      let w2 := ensureSeg (logindexAppend w1 (idx + 1)) (idx + 1)
      { w2 with currentLog := some (idx + 1) }
    else
      { w1 with currentLog := some name }

/-- Embeds `Writer.append`: honour a pending rotation by closing the current log,
open a current log when there is none, append the record (recno append:
its index is the new record count) and set the rotation flag when that
index reaches `max_log_events`. -/
def Writer.append (w : WriterState) (data : Data) : WriterState :=
  let w1 :=
    if w.nextWillCreateLog then
      { w with nextWillCreateLog := false, currentLog := none }
    else w
  let w2 := if w1.currentLog = none then Writer.set_current_log w1 else w1
  match w2.currentLog with
  | some name =>
    let idx := (getSeg w2 name).length + 1
    let w3 := setSeg w2 name (getSeg w2 name ++ [data])
    { w3 with nextWillCreateLog := decide (w3.maxLogEvents ≤ idx) }
  | none => w2

/-- Left fold of `Writer.append` over a list of payloads. -/
def Writer.appendList (w : WriterState) (ds : List Data) : WriterState :=
  ds.foldl Writer.append w

/-- Modelled from the spec: `Writer.delete` is inherited from the Binlog
base class (src/binlog/binlog.py), which is not under src.  Spec 4.C:
`delete(segment_number)` removes a segment file and its logindex entry;
it fails with in-use when the segment is the current writer target or a
registered reader progress pointer still lies within it, and deleting a
missing segment fails with not-found.  Reader progress pointers are given
as `reader name -> segment number`. -/
def Writer.delete (w : WriterState) (readers : List (String × Nat)) (n : Nat) :
    Except BErr WriterState :=
  if w.currentLog = some n then .error .inUse
  else if readers.any (fun r => r.2 = n) then .error .inUse
  else if n ∈ keysOf w.segments then
    .ok { w with
          segments := w.segments.filter (fun p => p.1 ≠ n)
          logindex := w.logindex.filter (fun p => p.2 ≠ n) }
  else .error .notFound

/-!
The connection object (src/binlog/connection.py lines 19-30): a named
tuple carrying a mutable `closed` flag.  `close()` sets the flag; the
engine operations are lifted to the connection state and never read it. -/

/-- A connection: the `closed` flag plus the two persistent environments. -/
structure Conn where
  closed : Bool
  store : DataStore
  checkpoints : Checkpoints
deriving DecidableEq

/-- Embeds `Connection.close`: sets the flag and nothing else. -/
def Conn.close (c : Conn) : Conn :=
  { c with closed := true }

/-- Embeds `create` lifted to the connection state. -/
def Conn.create (m : Model) (c : Conn) (kwargs : Fields) :
    Except BErr Entry × Conn :=
  ((Connection.create m c.store kwargs).1,
   { c with store := (Connection.create m c.store kwargs).2 })

/-- Embeds `bulk_create` lifted to the connection state. -/
def Conn.bulk_create (c : Conn) (entries : List Fields) :
    Except BErr Nat × Conn :=
  ((Connection.bulk_create c.store entries).1,
   { c with store := (Connection.bulk_create c.store entries).2 })

/-- Embeds `reader` lifted to the connection state (read-only). -/
def Conn.reader (c : Conn) (name : Option String) :
    Except BErr (Option String × Option Registry) :=
  Connection.reader c.checkpoints name

/-- Embeds `register_reader` lifted to the connection state. -/
def Conn.register_reader (c : Conn) (name : String) : Bool × Conn :=
  ((Connection.register_reader c.checkpoints name).1,
   { c with checkpoints := (Connection.register_reader c.checkpoints name).2 })

/-- Embeds `save_registry` lifted to the connection state. -/
def Conn.save_registry (c : Conn) (name : String) (r : Registry) : Conn :=
  { c with checkpoints := Connection.save_registry c.checkpoints name r }

/-- Embeds `remove` lifted to the connection state. -/
def Conn.remove (m : Model) (c : Conn) (entry : Entry) :
    Except BErr Bool × Conn :=
  match Connection.remove m c.store c.checkpoints entry with
  | .ok (b, st2) => (.ok b, { c with store := st2 })
  | .error err => (.error err, c)

/-- Embeds `purge` lifted to the connection state. -/
def Conn.purge (m : Model) (c : Conn) : (Nat × Nat) × Conn :=
  ((Connection.purge m c.store c.checkpoints).1,
   { c with store := (Connection.purge m c.store c.checkpoints).2 })

/-! Helper lemmas about the checkpoints sub-database. -/

theorem cpGet_cpPut_self (cps : Checkpoints) (n : String) (r : Registry) :
    cpGet (cpPut cps n r) n = some r := by
  induction cps with
  | nil => simp [cpPut, cpGet]
  | cons p rest ih =>
    obtain ⟨m, s⟩ := p
    by_cases h : m = n
    · simp [cpPut, cpGet, h]
    · simp [cpPut, cpGet, h, ih]

theorem cpPut_cpPut_self (cps : Checkpoints) (n : String) (r r2 : Registry) :
    cpPut (cpPut cps n r) n r2 = cpPut cps n r2 := by
  induction cps with
  | nil => simp [cpPut]
  | cons p rest ih =>
    obtain ⟨m, s⟩ := p
    by_cases h : m = n
    · simp [cpPut, h]
    · simp [cpPut, h, ih]

/-- Claim C7: `save_registry(name, delta)` replaces the stored registry with
the union of the previously stored registry (empty when absent) and the
delta; performing it twice with the same registry equals performing it
once, and the stored set of acknowledged pks never shrinks. -/
theorem save_registry_union_idem_monotone (cps : Checkpoints) (name : String)
    (delta : Registry) :
    cpGet (Connection.save_registry cps name delta) name
      = some ((cpGet cps name).getD (∅ : Registry) ∪ delta) ∧
    Connection.save_registry (Connection.save_registry cps name delta) name delta
      = Connection.save_registry cps name delta ∧
    (cpGet cps name).getD (∅ : Registry)
      ⊆ (cpGet (Connection.save_registry cps name delta) name).getD (∅ : Registry) := by
  refine ⟨cpGet_cpPut_self cps name _, ?_, ?_⟩
  · show Connection.save_registry (cpPut cps name _) name delta = _
    unfold Connection.save_registry
    rw [cpGet_cpPut_self, cpPut_cpPut_self]
    simp [Finset.union_assoc]
  · rw [Connection.save_registry, cpGet_cpPut_self]
    exact Finset.subset_union_left

/-- Claim C10: `close()` changes only the `closed` flag, and every engine
operation invoked after `close()` returns the same result and performs the
same store and checkpoints effects as before `close()`. -/
theorem close_frame (m : Model) (c : Conn) :
    (Conn.close c).closed = true ∧
    (Conn.close c).store = c.store ∧
    (Conn.close c).checkpoints = c.checkpoints ∧
    (∀ kwargs, Conn.create m (Conn.close c) kwargs
      = ((Conn.create m c kwargs).1, Conn.close (Conn.create m c kwargs).2)) ∧
    (∀ entries, Conn.bulk_create (Conn.close c) entries
      = ((Conn.bulk_create c entries).1, Conn.close (Conn.bulk_create c entries).2)) ∧
    (∀ name, Conn.reader (Conn.close c) name = Conn.reader c name) ∧
    (∀ name, Conn.register_reader (Conn.close c) name
      = ((Conn.register_reader c name).1, Conn.close (Conn.register_reader c name).2)) ∧
    (∀ name r, Conn.save_registry (Conn.close c) name r
      = Conn.close (Conn.save_registry c name r)) ∧
    (∀ entry, Conn.remove m (Conn.close c) entry
      = ((Conn.remove m c entry).1, Conn.close (Conn.remove m c entry).2)) ∧
    Conn.purge m (Conn.close c)
      = ((Conn.purge m c).1, Conn.close (Conn.purge m c).2) := by
  refine ⟨rfl, rfl, rfl, fun kwargs => rfl, fun entries => rfl, fun name => rfl,
    fun name => rfl, fun name r => rfl, fun entry => ?_, rfl⟩
  show (match Connection.remove m c.store c.checkpoints entry with
        | .ok (b, st2) => (Except.ok b, { Conn.close c with store := st2 })
        | .error err => (.error err, Conn.close c)) = _
  cases h : Connection.remove m c.store c.checkpoints entry with
  | ok p => simp [Conn.remove, Conn.close, h]
  | error err => simp [Conn.remove, Conn.close, h]

/-! Helper lemmas about `Connection.index` and `Connection.create`. -/

theorem index_preserves_next (entry : Entry) :
    ∀ (l : List (String × Bool)) (st st2 : DataStore),
      Connection.index st entry l = .ok st2 → st2.nextEventId = st.nextEventId
  | [], st, st2, h => by
    simp only [Connection.index] at h
    cases h
    rfl
  | (index_name, mandatory) :: rest, st, st2, h => by
    cases hget : entry.get index_name with
    | none =>
      cases mandatory with
      | true => simp [Connection.index, hget] at h
      | false =>
        simp only [Connection.index, hget, Bool.false_eq_true, if_false] at h
        exact index_preserves_next entry rest st st2 h
    | some key =>
      simp only [Connection.index, hget] at h
      have hrec := index_preserves_next entry rest
        (setIdx st index_name (idxPut (getIdx st index_name) key entry.pk)) st2 h
      exact hrec

theorem index_preserves_entries (entry : Entry) :
    ∀ (l : List (String × Bool)) (st st2 : DataStore),
      Connection.index st entry l = .ok st2 → st2.entries = st.entries
  | [], st, st2, h => by
    simp only [Connection.index] at h
    cases h
    rfl
  | (index_name, mandatory) :: rest, st, st2, h => by
    cases hget : entry.get index_name with
    | none =>
      cases mandatory with
      | true => simp [Connection.index, hget] at h
      | false =>
        simp only [Connection.index, hget, Bool.false_eq_true, if_false] at h
        exact index_preserves_entries entry rest st st2 h
    | some key =>
      simp only [Connection.index, hget] at h
      have hrec := index_preserves_entries entry rest
        (setIdx st index_name (idxPut (getIdx st index_name) key entry.pk)) st2 h
      exact hrec

/-- Claim C3: a successful `create` returns an entry with `saved = true`
whose `pk` is the `next_event_id` read at the start of the call (default 0
when absent), and leaves the stored `next_event_id` at `pk + 1`. -/
theorem create_success_spec (m : Model) (st : DataStore) (kwargs : Fields)
    (e : Entry) (st2 : DataStore)
    (h : Connection.create m st kwargs = (.ok e, st2)) :
    e.saved = true ∧ e.pk = Connection.get_next_event_idx st ∧
    Connection.get_next_event_idx st2 = e.pk + 1 := by
  unfold Connection.create at h
  cases hb : Connection.create_body m st kwargs with
  | error err => rw [hb] at h; simp at h
  | ok p =>
    obtain ⟨e1, st3⟩ := p
    rw [hb] at h
    simp only [Prod.mk.injEq, Except.ok.injEq] at h
    obtain ⟨he, hst⟩ := h
    simp only [Connection.create_body] at hb
    split at hb
    · split at hb
      · rename_i st4 hidx
        simp only [Except.ok.injEq, Prod.mk.injEq] at hb
        obtain ⟨hbe, hbs⟩ := hb
        have hnext := index_preserves_next _ _ _ _ hidx
        refine ⟨?_, ?_, ?_⟩
        · rw [← he, ← hbe]
        · rw [← he, ← hbe]
        · rw [← hst, ← hbs, ← he, ← hbe]
          simp only [Connection.get_next_event_idx]
          rw [hnext]
          rfl
      · simp at hb
    · simp at hb


/-- Claim C1 (amended): when the append-mode put fails, `create` raises
IntegrityError; the raise escapes the `data(write=True)` scope, the
transaction aborts, and the stored `next_event_id` is rolled back to its
pre-call value — the in-transaction advance is discarded, so the pk is
not durably reserved. -/
theorem create_failure_rolls_back (m : Model) (st : DataStore) (kwargs : Fields)
    (h : (entriesPutB st.entries (Connection.get_next_event_idx st) kwargs).1 = false) :
    Connection.create m st kwargs = (.error .integrity, st) := by
  unfold Connection.create Connection.create_body
  simp [h]

/-- Counterexample to claim C1 as stated: on a store where the entries put
fails (`next_event_id` is 0 while pk 0 is already occupied), `create`
raises IntegrityError but the stored `next_event_id` after the call is
still 0 — it does not remain advanced by one. -/
theorem create_failure_counter_not_advanced :
    (Connection.create ⟨[]⟩ ⟨some 0, [(0, [("x", 5)])], []⟩ [("y", 7)]).1
        = .error .integrity ∧
    (Connection.create ⟨[]⟩ ⟨some 0, [(0, [("x", 5)])], []⟩ [("y", 7)]).2.nextEventId
        = some 0 ∧
    (Connection.create ⟨[]⟩ ⟨some 0, [(0, [("x", 5)])], []⟩ [("y", 7)]).2.nextEventId
        ≠ some (Connection.get_next_event_idx ⟨some 0, [(0, [("x", 5)])], []⟩ + 1) := by
  refine ⟨rfl, rfl, by decide⟩

/-- Witness for the amended claim C1: the concrete failing store satisfies
the hypothesis and the conclusion. -/
theorem create_failure_rolls_back_witness :
    (entriesPutB [(0, [("x", 5)])]
        (Connection.get_next_event_idx ⟨some 0, [(0, [("x", 5)])], []⟩) [("y", 7)]).1
      = false ∧
    Connection.create ⟨[]⟩ ⟨some 0, [(0, [("x", 5)])], []⟩ [("y", 7)]
      = (.error .integrity, ⟨some 0, [(0, [("x", 5)])], []⟩) :=
  ⟨by decide,
   create_failure_rolls_back ⟨[]⟩ ⟨some 0, [(0, [("x", 5)])], []⟩ [("y", 7)] (by decide)⟩

/-! Helper lemmas about `putmulti` for `bulk_create`. -/

theorem get_next_update (st : DataStore) (v : Nat) :
    Connection.get_next_event_idx (Connection.update_next_event_idx st v) = v := rfl

theorem entriesPutB_true (es : List (Nat × Fields)) (k : Nat) (v : Fields)
    (h : (entriesPutB es k v).1 = true) : (entriesPutB es k v).2 = es ++ [(k, v)] := by
  unfold entriesPutB at h ⊢
  cases hm : entriesMaxKey es with
  | none => simp [hm]
  | some m =>
    simp only [hm] at h ⊢
    by_cases hlt : m < k
    · simp [hlt]
    · simp [hlt] at h

theorem putmulti_consumed (l : List (Nat × Fields)) :
    ∀ es, (putmulti es l).1 = l.length := by
  induction l with
  | nil => intro es; rfl
  | cons p rest ih =>
    intro es
    obtain ⟨k, v⟩ := p
    simp only [putmulti, List.length_cons]
    rw [ih]

theorem putmulti_added_le (l : List (Nat × Fields)) :
    ∀ es, (putmulti es l).2.1 ≤ l.length := by
  induction l with
  | nil => intro es; exact Nat.le_refl 0
  | cons p rest ih =>
    intro es
    obtain ⟨k, v⟩ := p
    simp only [putmulti, List.length_cons]
    split
    · exact Nat.succ_le_succ (ih _)
    · exact Nat.le_succ_of_le (ih _)

theorem putmulti_all_added (l : List (Nat × Fields)) :
    ∀ es, (putmulti es l).2.1 = l.length → (putmulti es l).2.2 = es ++ l := by
  induction l with
  | nil => intro es _; simp [putmulti]
  | cons p rest ih =>
    intro es h
    obtain ⟨k, v⟩ := p
    simp only [putmulti, List.length_cons] at h ⊢
    split at h
    · rename_i hsucc
      have hrest : (putmulti (entriesPutB es k v).2 rest).2.1 = rest.length :=
        Nat.succ_injective h
      rw [ih _ hrest, entriesPutB_true es k v hsucc]
      simp
    · exfalso
      have hle := putmulti_added_le rest (entriesPutB es k v).2
      omega

/-- Claim C8 (amended): `bulk_create` assigns consecutive primary keys
starting at the current `next_event_id` and inserts them via a single
append-mode multi-put.  On success (`consumed = added`) it returns the
accepted count, the entries land at those consecutive keys and
`next_event_id` is increased by the consumed count; when
`consumed ≠ added` it raises IntegrityError and the aborting transaction
leaves the store — `next_event_id` included — unchanged. -/
theorem bulk_create_spec (st : DataStore) (entries : List Fields) :
    (∀ n st2, Connection.bulk_create st entries = (.ok n, st2) →
      n = entries.length ∧
      st2.entries = st.entries
        ++ List.enumFrom (Connection.get_next_event_idx st) entries ∧
      Connection.get_next_event_idx st2
        = Connection.get_next_event_idx st + entries.length) ∧
    (∀ err st2, Connection.bulk_create st entries = (.error err, st2) →
      err = .integrity ∧ st2 = st) := by
  constructor
  · intro n st2 h
    unfold Connection.bulk_create at h
    cases hb : Connection.bulk_create_body st entries with
    | error e => rw [hb] at h; simp at h
    | ok p =>
      obtain ⟨n1, st3⟩ := p
      rw [hb] at h
      simp only [Prod.mk.injEq, Except.ok.injEq] at h
      obtain ⟨hn, hst⟩ := h
      simp only [Connection.bulk_create_body] at hb
      split at hb
      · simp at hb
      · rename_i hce
        simp only [Except.ok.injEq, Prod.mk.injEq] at hb
        obtain ⟨hb1, hb2⟩ := hb
        have hcons := putmulti_consumed
          (List.enumFrom (Connection.get_next_event_idx st) entries) st.entries
        rw [List.enumFrom_length] at hcons
        have hea : (putmulti st.entries
            (List.enumFrom (Connection.get_next_event_idx st) entries)).1
              = (putmulti st.entries
            (List.enumFrom (Connection.get_next_event_idx st) entries)).2.1 :=
          Decidable.not_not.mp hce
        have hadd : (putmulti st.entries
            (List.enumFrom (Connection.get_next_event_idx st) entries)).2.1
              = entries.length := hea.symm.trans hcons
        have hall := putmulti_all_added
          (List.enumFrom (Connection.get_next_event_idx st) entries) st.entries
          (by rw [List.enumFrom_length]; exact hadd)
        refine ⟨?_, ?_, ?_⟩
        · rw [← hn, ← hb1]
          exact hadd
        · rw [← hst, ← hb2]
          exact hall
        · rw [← hst, ← hb2, get_next_update, hcons]
  · intro err st2 h
    unfold Connection.bulk_create at h
    cases hb : Connection.bulk_create_body st entries with
    | ok p => rw [hb] at h; obtain ⟨n1, st3⟩ := p; simp at h
    | error e =>
      rw [hb] at h
      simp only [Prod.mk.injEq, Except.error.injEq] at h
      obtain ⟨he, hst⟩ := h
      simp only [Connection.bulk_create_body] at hb
      split at hb
      · simp only [Except.error.injEq] at hb
        exact ⟨by rw [← he, ← hb], hst.symm⟩
      · simp at hb

/-! Helper lemmas about `entriesPop`, `allAcked` and `Connection.unindex`. -/

theorem entriesPop_eq_none (pk : Nat) :
    ∀ (es : List (Nat × Fields)), entriesPop es pk = none ↔ pk ∉ keysOf es
  | [] => by simp [entriesPop, keysOf]
  | (k, v) :: rest => by
    by_cases hk : k = pk
    · simp [entriesPop, hk, keysOf]
    · have ih := entriesPop_eq_none pk rest
      simp only [entriesPop, hk, if_false, keysOf, List.map_cons, List.mem_cons]
      cases hp : entriesPop rest pk with
      | some p =>
        obtain ⟨v2, rest2⟩ := p
        have hmem : pk ∈ List.map Prod.fst rest := by
          by_contra hc
          rw [ih.mpr (by simpa [keysOf] using hc)] at hp
          cases hp
        simp [hmem]
      | none =>
        have hnot : pk ∉ List.map Prod.fst rest := by simpa [keysOf] using ih.mp hp
        have hne : ¬ pk = k := fun h => hk h.symm
        simp [hnot, hne]

theorem entriesPop_sublist (pk : Nat) :
    ∀ (es : List (Nat × Fields)) (v : Fields) (es2 : List (Nat × Fields)),
      entriesPop es pk = some (v, es2) → es2.Sublist es
  | [], v, es2, h => by simp [entriesPop] at h
  | (k, w) :: rest, v, es2, h => by
    by_cases hk : k = pk
    · simp only [entriesPop, hk, if_true, Option.some.injEq, Prod.mk.injEq] at h
      rw [← h.2]
      exact List.sublist_cons_self (k, w) rest
    · simp only [entriesPop, hk, if_false] at h
      cases hp : entriesPop rest pk with
      | none => rw [hp] at h; cases h
      | some p =>
        obtain ⟨v2, rest2⟩ := p
        rw [hp] at h
        simp only [Option.some.injEq, Prod.mk.injEq] at h
        rw [← h.2]
        exact List.Sublist.cons₂ (k, w) (entriesPop_sublist pk rest v2 rest2 hp)

theorem entriesPop_nodup_not_mem (pk : Nat) :
    ∀ (es : List (Nat × Fields)) (v : Fields) (es2 : List (Nat × Fields)),
      (keysOf es).Nodup → entriesPop es pk = some (v, es2) → pk ∉ keysOf es2
  | [], v, es2, _, h => by simp [entriesPop] at h
  | (k, w) :: rest, v, es2, hnd, h => by
    rw [keysOf, List.map_cons, List.nodup_cons] at hnd
    by_cases hk : k = pk
    · simp only [entriesPop, hk, if_true, Option.some.injEq, Prod.mk.injEq] at h
      rw [← h.2, ← hk]
      exact hnd.1
    · simp only [entriesPop, hk, if_false] at h
      cases hp : entriesPop rest pk with
      | none => rw [hp] at h; cases h
      | some p =>
        obtain ⟨v2, rest2⟩ := p
        rw [hp] at h
        simp only [Option.some.injEq, Prod.mk.injEq] at h
        rw [← h.2]
        intro hmem
        rw [keysOf, List.map_cons, List.mem_cons] at hmem
        cases hmem with
        | inl he => exact hk he.symm
        | inr ht => exact entriesPop_nodup_not_mem pk rest v2 rest2 hnd.2 hp ht

theorem entriesPop_mem_keys (pk : Nat) :
    ∀ (es : List (Nat × Fields)) (v : Fields) (es2 : List (Nat × Fields)),
      entriesPop es pk = some (v, es2) →
      ∀ pk2, pk2 ≠ pk → (pk2 ∈ keysOf es2 ↔ pk2 ∈ keysOf es)
  | [], v, es2, h => by simp [entriesPop] at h
  | (k, w) :: rest, v, es2, h => by
    intro pk2 hne
    by_cases hk : k = pk
    · simp only [entriesPop, hk, if_true, Option.some.injEq, Prod.mk.injEq] at h
      rw [← h.2, keysOf, keysOf, List.map_cons, List.mem_cons]
      constructor
      · exact Or.inr
      · rintro (he | ht)
        · exact absurd (he.trans hk) hne
        · exact ht
    · simp only [entriesPop, hk, if_false] at h
      cases hp : entriesPop rest pk with
      | none => rw [hp] at h; cases h
      | some p =>
        obtain ⟨v2, rest2⟩ := p
        rw [hp] at h
        simp only [Option.some.injEq, Prod.mk.injEq] at h
        rw [← h.2, keysOf, keysOf, List.map_cons, List.map_cons, List.mem_cons, List.mem_cons]
        have ih := entriesPop_mem_keys pk rest v2 rest2 hp pk2 hne
        rw [keysOf, keysOf] at ih
        rw [ih]

theorem allAcked_eq_false (cps : Checkpoints) (pk : Nat) :
    ∀ (names : List String),
      (∃ n ∈ names, pk ∉ (cpGet cps n).getD (∅ : Registry)) →
      allAcked cps pk names = false
  | [], h => by obtain ⟨n, hn, _⟩ := h; cases hn
  | n0 :: rest, h => by
    obtain ⟨n, hn, hpk⟩ := h
    by_cases hmem : pk ∈ (cpGet cps n0).getD (∅ : Registry)
    · simp only [allAcked, hmem, if_true]
      cases List.mem_cons.mp hn with
      | inl he => exact absurd (he ▸ hmem) hpk
      | inr ht => exact allAcked_eq_false cps pk rest ⟨n, ht, hpk⟩
    · simp [allAcked, hmem]

theorem allAcked_eq_true (cps : Checkpoints) (pk : Nat) :
    ∀ (names : List String),
      (∀ n ∈ names, pk ∈ (cpGet cps n).getD (∅ : Registry)) →
      allAcked cps pk names = true
  | [], _ => rfl
  | n0 :: rest, h => by
    have hmem := h n0 (List.mem_cons_self n0 rest)
    simp only [allAcked, hmem, if_true]
    exact allAcked_eq_true cps pk rest (fun n hn => h n (List.mem_cons_of_mem n0 hn))

theorem getIdxAux_setIdxAux (n1 n2 : String) (db : List (Nat × Nat)) :
    ∀ (l : List (String × List (Nat × Nat))),
      getIdx.getIdxAux (setIdx.setIdxAux l n1 db) n2
        = if n1 = n2 then db else getIdx.getIdxAux l n2
  | [] => by
    by_cases h : n1 = n2 <;> simp [setIdx.setIdxAux, getIdx.getIdxAux, h]
  | (n, d) :: rest => by
    by_cases hn : n = n1
    · by_cases h12 : n1 = n2
      · simp [setIdx.setIdxAux, getIdx.getIdxAux, hn, h12]
      · have hn2 : ¬ n = n2 := by rw [hn]; exact h12
        simp [setIdx.setIdxAux, getIdx.getIdxAux, hn, h12, hn2]
    · by_cases hn2 : n = n2
      · have h12 : ¬ n1 = n2 := by rw [← hn2]; exact fun hc => hn hc.symm
        have hn21 : ¬ n2 = n1 := fun hc => hn (hn2.trans hc)
        simp [setIdx.setIdxAux, getIdx.getIdxAux, hn, hn2, h12, hn21]
      · simp [setIdx.setIdxAux, getIdx.getIdxAux, hn, hn2,
          getIdxAux_setIdxAux n1 n2 db rest]

theorem getIdx_setIdx (st : DataStore) (n1 n2 : String) (db : List (Nat × Nat)) :
    getIdx (setIdx st n1 db) n2 = if n1 = n2 then db else getIdx st n2 :=
  getIdxAux_setIdxAux n1 n2 db st.indexes

theorem unindex_preserves_entries (e : Entry) :
    ∀ (l : List (String × Bool)) (st : DataStore),
      (Connection.unindex st e l).entries = st.entries
  | [], st => rfl
  | (j, b) :: rest, st => by
    cases hget : e.get j with
    | none =>
      simp only [Connection.unindex, hget]
      exact unindex_preserves_entries e rest st
    | some key =>
      simp only [Connection.unindex, hget]
      have hrec := unindex_preserves_entries e rest
        (setIdx st j (idxDelete (getIdx st j) key e.pk))
      exact hrec

theorem unindex_preserves_not_mem (e : Entry) (i : String) (p : Nat × Nat) :
    ∀ (l : List (String × Bool)) (st : DataStore),
      p ∉ getIdx st i → p ∉ getIdx (Connection.unindex st e l) i
  | [], st, h => h
  | (j, b) :: rest, st, h => by
    cases hget : e.get j with
    | none =>
      simp only [Connection.unindex, hget]
      exact unindex_preserves_not_mem e i p rest st h
    | some key =>
      simp only [Connection.unindex, hget]
      refine unindex_preserves_not_mem e i p rest _ ?_
      rw [getIdx_setIdx]
      by_cases hji : j = i
      · rw [if_pos hji]
        intro hmem
        rw [idxDelete] at hmem
        have hsub : p ∈ getIdx st j := List.mem_of_mem_erase hmem
        rw [hji] at hsub
        exact h hsub
      · rw [if_neg hji]
        exact h

theorem unindex_nodup (e : Entry) (i : String) :
    ∀ (l : List (String × Bool)) (st : DataStore),
      (getIdx st i).Nodup → (getIdx (Connection.unindex st e l) i).Nodup
  | [], st, h => h
  | (j, b) :: rest, st, h => by
    cases hget : e.get j with
    | none =>
      simp only [Connection.unindex, hget]
      exact unindex_nodup e i rest st h
    | some key =>
      simp only [Connection.unindex, hget]
      refine unindex_nodup e i rest _ ?_
      rw [getIdx_setIdx]
      by_cases hji : j = i
      · rw [if_pos hji, idxDelete]
        exact List.Nodup.erase (key, e.pk) (hji ▸ h)
      · rw [if_neg hji]
        exact h

theorem unindex_removes_pair (e : Entry) :
    ∀ (l : List (String × Bool)) (st : DataStore) (i : String) (b : Bool) (k : Nat),
      (i, b) ∈ l → e.get i = some k → (getIdx st i).Nodup →
      (k, e.pk) ∉ getIdx (Connection.unindex st e l) i
  | [], st, i, b, k, hmem, _, _ => by cases hmem
  | (j, bj) :: rest, st, i, b, k, hmem, hget, hnd => by
    cases List.mem_cons.mp hmem with
    | inl he =>
      injection he with hji hbb
      subst hji
      simp only [Connection.unindex, hget]
      refine unindex_preserves_not_mem e i _ rest _ ?_
      rw [getIdx_setIdx, if_pos rfl, idxDelete]
      exact hnd.not_mem_erase
    | inr ht =>
      cases hget2 : e.get j with
      | none =>
        simp only [Connection.unindex, hget2]
        exact unindex_removes_pair e rest st i b k ht hget hnd
      | some key2 =>
        simp only [Connection.unindex, hget2]
        refine unindex_removes_pair e rest _ i b k ht hget ?_
        rw [getIdx_setIdx]
        by_cases hji : j = i
        · rw [if_pos hji, idxDelete]
          exact List.Nodup.erase (key2, e.pk) (hji ▸ hnd)
        · rw [if_neg hji]
          exact hnd

/-! Helper lemmas about `Connection.purge`. -/

theorem purge_loop_errors (m : Model) :
    ∀ (l : List Nat) (st : DataStore) (removed : Nat),
      (Connection.purge_loop m l st removed 0).2.1 = 0
  | [], st, removed => rfl
  | pk :: rest, st, removed => by
    simp only [Connection.purge_loop]
    cases hp : entriesPop st.entries pk with
    | some p =>
      obtain ⟨v, es2⟩ := p
      exact purge_loop_errors m rest _ (removed + 1)
    | none => exact purge_loop_errors m rest st removed

theorem purge_loop_removed (m : Model) :
    ∀ (l : List Nat), l.Nodup → ∀ (st : DataStore) (removed errors : Nat),
      (Connection.purge_loop m l st removed errors).1
        = removed + l.countP (fun pk => decide (pk ∈ keysOf st.entries))
  | [], _, st, removed, errors => by simp [Connection.purge_loop]
  | pk :: rest, hnd0, st, removed, errors => by
    have hnd := List.nodup_cons.mp hnd0
    simp only [Connection.purge_loop]
    cases hp : entriesPop st.entries pk with
    | some p =>
      obtain ⟨v, es2⟩ := p
      have hmem : pk ∈ keysOf st.entries := by
        by_contra hc
        rw [(entriesPop_eq_none pk st.entries).mpr hc] at hp
        cases hp
      rw [purge_loop_removed m rest hnd.2
        (Connection.unindex { st with entries := es2 } (Model.ofStored v) m.indexes)
        (removed + 1) errors]
      have hcount : rest.countP (fun pk2 => decide (pk2 ∈ keysOf
            (Connection.unindex { st with entries := es2 }
              (Model.ofStored v) m.indexes).entries))
          = rest.countP (fun pk2 => decide (pk2 ∈ keysOf st.entries)) := by
        refine List.countP_congr ?_
        intro pk2 hpk2
        have hne : pk2 ≠ pk := fun hc => hnd.1 (hc ▸ hpk2)
        rw [unindex_preserves_entries]
        simp only [decide_eq_true_eq]
        exact entriesPop_mem_keys pk st.entries v es2 hp pk2 hne
      rw [hcount, List.countP_cons]
      simp only [hmem, decide_eq_true_eq, if_pos]
      omega
    | none =>
      have hnot : pk ∉ keysOf st.entries := (entriesPop_eq_none pk st.entries).mp hp
      rw [purge_loop_removed m rest hnd.2 st removed 0, List.countP_cons]
      simp [hnot]

theorem purge_loop_preserves_not_mem (m : Model) :
    ∀ (l : List Nat) (st : DataStore) (removed errors : Nat) (pk : Nat),
      pk ∉ keysOf st.entries →
      pk ∉ keysOf (Connection.purge_loop m l st removed errors).2.2.entries
  | [], st, removed, errors, pk, h => h
  | q :: rest, st, removed, errors, pk, h => by
    simp only [Connection.purge_loop]
    cases hp : entriesPop st.entries q with
    | some p =>
      obtain ⟨v, es2⟩ := p
      refine purge_loop_preserves_not_mem m rest _ (removed + 1) errors pk ?_
      rw [unindex_preserves_entries]
      intro hc
      exact h (((entriesPop_sublist q st.entries v es2 hp).map Prod.fst).mem hc)
    | none => exact purge_loop_preserves_not_mem m rest st removed 0 pk h

theorem purge_loop_not_mem (m : Model) :
    ∀ (l : List Nat) (st : DataStore) (removed errors : Nat) (pk : Nat),
      (keysOf st.entries).Nodup → pk ∈ l →
      pk ∉ keysOf (Connection.purge_loop m l st removed errors).2.2.entries
  | [], st, removed, errors, pk, _, hmem => by cases hmem
  | q :: rest, st, removed, errors, pk, hnd, hmem => by
    simp only [Connection.purge_loop]
    cases hp : entriesPop st.entries q with
    | some p =>
      obtain ⟨v, es2⟩ := p
      have hsub : (keysOf es2).Sublist (keysOf st.entries) :=
        (entriesPop_sublist q st.entries v es2 hp).map Prod.fst
      by_cases hq : pk = q
      · refine purge_loop_preserves_not_mem m rest _ (removed + 1) errors pk ?_
        rw [unindex_preserves_entries]
        exact hq ▸ entriesPop_nodup_not_mem q st.entries v es2 hnd hp
      · have ht : pk ∈ rest := by
          cases List.mem_cons.mp hmem with
          | inl he => exact absurd he hq
          | inr ht => exact ht
        refine purge_loop_not_mem m rest _ (removed + 1) errors pk ?_ ht
        rw [unindex_preserves_entries]
        exact hnd.sublist hsub
    | none =>
      by_cases hq : pk = q
      · exact purge_loop_preserves_not_mem m rest st removed 0 pk
          (hq ▸ (entriesPop_eq_none q st.entries).mp hp)
      · have ht : pk ∈ rest := by
          cases List.mem_cons.mp hmem with
          | inl he => exact absurd he hq
          | inr ht => exact ht
        exact purge_loop_not_mem m rest st removed 0 pk hnd ht

theorem sort_countP_card (s : Finset Nat) (p : Nat → Prop) [DecidablePred p] :
    (s.sort (· ≤ ·)).countP (fun a => decide (p a)) = (s.filter p).card := by
  rw [(Finset.sort_perm_toList (· ≤ ·) s).countP_eq, Finset.toList,
    ← Multiset.coe_countP, Multiset.coe_toList, Multiset.countP_eq_card_filter]
  rfl

theorem purge_cons (m : Model) (st : DataStore) (p : String × Registry)
    (rest : Checkpoints) :
    Connection.purge m st (p :: rest)
      = (((Connection.purge_loop m
            ((commonAcked (Connection.purge_registries (p :: rest))).sort (· ≤ ·))
            st 0 0).1,
          (Connection.purge_loop m
            ((commonAcked (Connection.purge_registries (p :: rest))).sort (· ≤ ·))
            st 0 0).2.1),
         (Connection.purge_loop m
            ((commonAcked (Connection.purge_registries (p :: rest))).sort (· ≤ ·))
            st 0 0).2.2) := rfl

/-- Characterization of the counters and the entry deletions of `purge`:
the errors component is always 0; with no registered readers it returns
`(0, 0)`; otherwise the removed component equals the number of primary
keys in the intersection of all stored registries that are present in the
entries sub-database, and every common primary key has been deleted from
entries.  (The un-indexing of `purge` is examined separately: it acts on
a rebuilt entry and misses the live index pairs.) -/
theorem purge_spec (m : Model) (st : DataStore) (cps : Checkpoints) :
    (cps = [] → Connection.purge m st cps = ((0, 0), st)) ∧
    (Connection.purge m st cps).1.2 = 0 ∧
    (cps ≠ [] →
      (Connection.purge m st cps).1.1
        = ((commonAcked (Connection.purge_registries cps)).filter
            (fun pk => pk ∈ keysOf st.entries)).card) ∧
    ((keysOf st.entries).Nodup → cps ≠ [] →
      ∀ pk ∈ commonAcked (Connection.purge_registries cps),
        pk ∉ keysOf (Connection.purge m st cps).2.entries) := by
  cases cps with
  | nil =>
    refine ⟨fun _ => rfl, rfl, fun hne => absurd rfl hne, fun _ hne => absurd rfl hne⟩
  | cons p rest =>
    refine ⟨?_, ?_, ?_, ?_⟩
    · intro hc
      cases hc
    · rw [purge_cons]
      exact purge_loop_errors m _ st 0
    · intro hne
      rw [purge_cons]
      rw [purge_loop_removed m _ (Finset.sort_nodup (· ≤ ·) _) st 0 0]
      rw [sort_countP_card]
      simp
    · intro hnd hne pk hpk
      rw [purge_cons]
      exact purge_loop_not_mem m _ st 0 0 pk hnd
        ((Finset.mem_sort (· ≤ ·)).mpr hpk)

/-- Concrete instance of the `purge` counter characterization: no readers
gives `(0, 0)`; with two readers whose registries intersect in pk 0 and
three stored entries, `purge` removes exactly one entry and pk 0 is gone
afterwards. -/
theorem purge_spec_witness :
    Connection.purge ⟨[]⟩ ⟨some 3, [(0, [("a", 1)]), (1, [("b", 2)]), (2, [("c", 3)])], []⟩ []
      = ((0, 0), ⟨some 3, [(0, [("a", 1)]), (1, [("b", 2)]), (2, [("c", 3)])], []⟩) ∧
    (Connection.purge ⟨[]⟩ ⟨some 3, [(0, [("a", 1)]), (1, [("b", 2)]), (2, [("c", 3)])], []⟩
        [("r1", ({0, 1} : Registry)), ("r2", ({0, 2} : Registry))]).1.1
      = ((commonAcked (Connection.purge_registries
            [("r1", ({0, 1} : Registry)), ("r2", ({0, 2} : Registry))])).filter
          (fun pk => pk ∈ keysOf ([(0, [("a", 1)]), (1, [("b", 2)]), (2, [("c", 3)])]
            : List (Nat × Fields)))).card ∧
    (0 : Nat) ∉ keysOf (Connection.purge ⟨[]⟩
        ⟨some 3, [(0, [("a", 1)]), (1, [("b", 2)]), (2, [("c", 3)])], []⟩
        [("r1", ({0, 1} : Registry)), ("r2", ({0, 2} : Registry))]).2.entries := by
  refine ⟨(purge_spec ⟨[]⟩ _ []).1 rfl, ?_, ?_⟩
  · exact (purge_spec ⟨[]⟩ _ _).2.2.1 (List.cons_ne_nil _ _)
  · exact (purge_spec ⟨[]⟩ _ _).2.2.2 (by decide) (List.cons_ne_nil _ _) 0 (by decide)

/-- Claim C5: `remove(entry)` fails with ReaderDoesNotExist when no reader
is registered, and returns `false` without mutating the entries or any
index sub-database when some registered reader's stored registry does not
contain `entry.pk`. -/
theorem remove_guards (m : Model) (st : DataStore) (cps : Checkpoints)
    (entry : Entry) :
    (Connection.list_readers cps = [] →
      Connection.remove m st cps entry = .error .readerDoesNotExist) ∧
    (∀ n, n ∈ Connection.list_readers cps →
      entry.pk ∉ (cpGet cps n).getD (∅ : Registry) →
      Connection.remove m st cps entry = .ok (false, st)) := by
  constructor
  · intro hempty
    simp [Connection.remove, hempty]
  · intro n hn hpk
    have hne : (Connection.list_readers cps).isEmpty = false := by
      cases hcl : Connection.list_readers cps with
      | nil => rw [hcl] at hn; cases hn
      | cons a b => rfl
    have hfalse := allAcked_eq_false cps entry.pk (Connection.list_readers cps)
      ⟨n, hn, hpk⟩
    simp [Connection.remove, hne, hfalse]

/-- Witness for claim C5: an empty checkpoints database makes `remove` fail
with ReaderDoesNotExist, and a registered reader with an empty registry
makes it return `false` with the store unchanged. -/
theorem remove_guards_witness :
    Connection.remove ⟨[]⟩ ⟨none, [], []⟩ [] ⟨[], 0, true⟩
      = .error .readerDoesNotExist ∧
    Connection.remove ⟨[]⟩ ⟨some 1, [(0, [("a", 1)])], []⟩
        [("r1", (∅ : Registry))] ⟨[("a", 1)], 0, true⟩
      = .ok (false, ⟨some 1, [(0, [("a", 1)])], []⟩) :=
  ⟨(remove_guards ⟨[]⟩ ⟨none, [], []⟩ [] ⟨[], 0, true⟩).1 rfl,
   (remove_guards ⟨[]⟩ ⟨some 1, [(0, [("a", 1)])], []⟩
      [("r1", (∅ : Registry))] ⟨[("a", 1)], 0, true⟩).2 "r1"
     (by simp [Connection.list_readers, keysOf]) (by decide)⟩

/-- Claim C6 (amended): when at least one reader is registered, every
registered reader's stored registry contains `entry.pk`, and `entry.pk`
is present in the entries sub-database, `remove` deletes `entry.pk` from
entries (touching no other key), removes the pair
`(entry.get(i), entry.pk)` from every declared index `i`, and returns
`true`; when `entry.pk` is absent from entries it instead returns `false`
and leaves the store unchanged. -/
theorem remove_all_acked_spec (m : Model) (st : DataStore) (cps : Checkpoints)
    (entry : Entry)
    (hall : ∀ n ∈ Connection.list_readers cps,
      entry.pk ∈ (cpGet cps n).getD (∅ : Registry))
    (hkeys : (keysOf st.entries).Nodup)
    (hidx : ∀ p ∈ m.indexes, (getIdx st p.1).Nodup) :
    (Connection.list_readers cps ≠ [] → entry.pk ∈ keysOf st.entries →
      ∃ st2, Connection.remove m st cps entry = .ok (true, st2) ∧
        entry.pk ∉ keysOf st2.entries ∧
        (∀ pk2, pk2 ≠ entry.pk → (pk2 ∈ keysOf st2.entries ↔ pk2 ∈ keysOf st.entries)) ∧
        (∀ p ∈ m.indexes, ∀ k, entry.get p.1 = some k →
          (k, entry.pk) ∉ getIdx st2 p.1)) ∧
    (Connection.list_readers cps ≠ [] → entry.pk ∉ keysOf st.entries →
      Connection.remove m st cps entry = .ok (false, st)) := by
  have htrue := allAcked_eq_true cps entry.pk (Connection.list_readers cps) hall
  constructor
  · intro hne hpresent
    have hnemp : (Connection.list_readers cps).isEmpty = false := by
      cases hcl : Connection.list_readers cps with
      | nil => exact absurd hcl hne
      | cons a b => rfl
    cases hpop : entriesPop st.entries entry.pk with
    | none => exact absurd ((entriesPop_eq_none entry.pk st.entries).mp hpop) (by simpa using hpresent)
    | some p =>
      obtain ⟨v, es2⟩ := p
      refine ⟨Connection.unindex { st with entries := es2 } entry m.indexes, ?_, ?_, ?_, ?_⟩
      · simp [Connection.remove, hnemp, htrue, hpop]
      · rw [unindex_preserves_entries]
        exact entriesPop_nodup_not_mem entry.pk st.entries v es2 hkeys hpop
      · intro pk2 hne2
        rw [unindex_preserves_entries]
        exact entriesPop_mem_keys entry.pk st.entries v es2 hpop pk2 hne2
      · intro p hp k hget
        have hnd : (getIdx { st with entries := es2 } p.1).Nodup := hidx p hp
        exact unindex_removes_pair entry m.indexes { st with entries := es2 }
          p.1 p.2 k (by simpa using hp) hget hnd
  · intro hne habsent
    have hnemp : (Connection.list_readers cps).isEmpty = false := by
      cases hcl : Connection.list_readers cps with
      | nil => exact absurd hcl hne
      | cons a b => rfl
    have hpop := (entriesPop_eq_none entry.pk st.entries).mpr habsent
    simp [Connection.remove, hnemp, htrue, hpop]

/-- Counterexample to claim C6 as stated: the single registered reader has
acknowledged pk 5, yet `remove` of an entry with pk 5 returns `false`
(not `true`) because pk 5 is absent from the entries sub-database. -/
theorem remove_all_acked_counterexample :
    (5 : Nat) ∈ (cpGet [("r1", ({5} : Registry))] "r1").getD (∅ : Registry) ∧
    Connection.remove ⟨[]⟩ ⟨some 0, [], []⟩ [("r1", ({5} : Registry))] ⟨[], 5, true⟩
      = .ok (false, ⟨some 0, [], []⟩) ∧
    (Except.ok (false, (⟨some 0, [], []⟩ : DataStore)) : Except BErr (Bool × DataStore))
      ≠ .ok (true, ⟨some 0, [], []⟩) := by
  refine ⟨by decide, rfl, by simp⟩

/-- Witness for the amended claim C6: a store with one indexed entry, fully
acknowledged, is removed: the call returns `true`, the entry is gone and
the index pair is gone. -/
theorem remove_all_acked_spec_witness :
    Connection.remove ⟨[("color", false)]⟩
        ⟨some 1, [(0, [("color", 9)])], [("color", [(9, 0)])]⟩
        [("r1", ({0} : Registry))] ⟨[("color", 9)], 0, true⟩
      = .ok (true, ⟨some 1, [], [("color", [])]⟩) ∧
    (0 : Nat) ∉ keysOf ((⟨some 1, [], [("color", [])]⟩ : DataStore).entries) ∧
    (9, 0) ∉ getIdx ⟨some 1, [], [("color", [])]⟩ "color" := by
  obtain ⟨st2, h1, h2, h3, h4⟩ :=
    (remove_all_acked_spec ⟨[("color", false)]⟩
        ⟨some 1, [(0, [("color", 9)])], [("color", [(9, 0)])]⟩
        [("r1", ({0} : Registry))] ⟨[("color", 9)], 0, true⟩
        (by decide) (by decide) (by decide)).1 (by decide) (by decide)
  have hcalc : Connection.remove ⟨[("color", false)]⟩
      ⟨some 1, [(0, [("color", 9)])], [("color", [(9, 0)])]⟩
      [("r1", ({0} : Registry))] ⟨[("color", 9)], 0, true⟩
      = .ok (true, (⟨some 1, [], [("color", [])]⟩ : DataStore)) := rfl
  have hst2 : st2 = (⟨some 1, [], [("color", [])]⟩ : DataStore) := by
    rw [hcalc] at h1
    simpa using h1.symm
  rw [hst2] at h2 h4
  exact ⟨hcalc, h2, h4 ("color", false) (by decide) 9 (by decide)⟩

/-- Counterexample to claim C8 as stated: on a store where `next_event_id`
is 0 while pk 0 is occupied, `bulk_create` of one entry consumes 1 but
adds 0, raises IntegrityError, and the aborted transaction leaves
`next_event_id` at 0 — not increased by the consumed count. -/
theorem bulk_create_counter_not_advanced :
    (Connection.bulk_create ⟨some 0, [(0, [("x", 5)])], []⟩ [[("a", 1)]]).1
        = .error .integrity ∧
    (Connection.bulk_create ⟨some 0, [(0, [("x", 5)])], []⟩ [[("a", 1)]]).2.nextEventId
        = some 0 ∧
    (Connection.bulk_create ⟨some 0, [(0, [("x", 5)])], []⟩ [[("a", 1)]]).2.nextEventId
        ≠ some (Connection.get_next_event_idx ⟨some 0, [(0, [("x", 5)])], []⟩ + 1) := by
  refine ⟨rfl, rfl, by decide⟩

/-- Witness for the amended claim C8: a bulk create of three entries on the
empty store returns 3, stores them at pks 0, 1, 2, and sets the counter
to 3. -/
theorem bulk_create_spec_witness :
    (3 : Nat) = ([[("a", 1)], [("b", 2)], [("c", 3)]] : List Fields).length ∧
    ([(0, [("a", 1)]), (1, [("b", 2)]), (2, [("c", 3)])] : List (Nat × Fields))
      = ([] : List (Nat × Fields))
        ++ List.enumFrom (Connection.get_next_event_idx ⟨none, [], []⟩)
             [[("a", 1)], [("b", 2)], [("c", 3)]] ∧
    Connection.get_next_event_idx
        ⟨some 3, [(0, [("a", 1)]), (1, [("b", 2)]), (2, [("c", 3)])], []⟩
      = Connection.get_next_event_idx ⟨none, [], []⟩
        + ([[("a", 1)], [("b", 2)], [("c", 3)]] : List Fields).length := by
  have h := (bulk_create_spec ⟨none, [], []⟩ [[("a", 1)], [("b", 2)], [("c", 3)]]).1
    3 ⟨some 3, [(0, [("a", 1)]), (1, [("b", 2)]), (2, [("c", 3)])], []⟩ rfl
  exact h

/-- Witness for claim C3: `create` on an empty store returns the entry with
pk 0 saved, and the stored counter becomes 1. -/
theorem create_success_spec_witness :
    (⟨[("a", 1)], 0, true⟩ : Entry).saved = true ∧
    (⟨[("a", 1)], 0, true⟩ : Entry).pk
      = Connection.get_next_event_idx ⟨none, [], []⟩ ∧
    Connection.get_next_event_idx ⟨some 1, [(0, [("a", 1)])], []⟩
      = (⟨[("a", 1)], 0, true⟩ : Entry).pk + 1 :=
  create_success_spec ⟨[]⟩ ⟨none, [], []⟩ [("a", 1)]
    ⟨[("a", 1)], 0, true⟩ ⟨some 1, [(0, [("a", 1)])], []⟩ rfl

/-- Claim C2: evaluation of `purge` at the failing input of the code bug.
One reader has acknowledged pk 1; the entry at pk 1 carries the indexed
value 9 and the index sub-database holds the pair `(9, 1)`.  `purge`
returns `(1, 0)` and deletes the entry, as the claim states — but the
un-indexing at connection.py:225 acts on `self.model(**value)`, an entry
rebuilt from the stored fields whose `pk` is the unsaved default, so the
live index pair `(9, 1)` survives: the removed primary key is deleted but
not un-indexed, contradicting the claim and the spec invariant that no
index edge refers to a missing entry. -/
theorem purge_leaves_index_pair :
    Connection.purge ⟨[("color", false)]⟩
        ⟨some 2, [(1, [("color", 9)])], [("color", [(9, 1)])]⟩
        [("r1", ({1} : Registry))]
      = ((1, 0), ⟨some 2, [], [("color", [(9, 1)])]⟩) ∧
    (1 : Nat) ∈ commonAcked (Connection.purge_registries [("r1", ({1} : Registry))]) ∧
    (9, 1) ∈ getIdx ⟨some 2, [(1, [("color", 9)])], [("color", [(9, 1)])]⟩ "color" ∧
    (1 : Nat) ∉ keysOf ((⟨some 2, [], [("color", [(9, 1)])]⟩ : DataStore).entries) ∧
    (9, 1) ∈ getIdx ⟨some 2, [], [("color", [(9, 1)])]⟩ "color" := by
  have hsort : (commonAcked (Connection.purge_registries
      [("r1", ({1} : Registry))])).sort (· ≤ ·) = [1] := by
    have hcommon : commonAcked (Connection.purge_registries
        [("r1", ({1} : Registry))]) = ({1} : Finset Nat) := rfl
    rw [hcommon]
    exact Finset.sort_singleton (· ≤ ·) 1
  refine ⟨?_, by decide, by decide, by decide, by decide⟩
  rw [purge_cons, hsort]
  decide

/-! Helper lemmas about the segmented writer. -/

theorem writer_first_append (M : Nat) (d : Data) :
    Writer.append (Writer.fresh M) d
      = ⟨[(1, 1)], [(1, [d])], some 1, decide (M ≤ 1), M⟩ := by
  simp [Writer.append, Writer.fresh, Writer.set_current_log, logindexAppend,
    ensureSeg, keysOf, getSeg, getSeg.getSegAux, setSeg, setSeg.setSegAux]

theorem writer_fill (M : Nat) :
    ∀ (ds : List Data) (rs : List Data), 1 ≤ rs.length → rs.length + ds.length ≤ M →
      Writer.appendList ⟨[(1, 1)], [(1, rs)], some 1, decide (M ≤ rs.length), M⟩ ds
        = ⟨[(1, 1)], [(1, rs ++ ds)], some 1, decide (M ≤ rs.length + ds.length), M⟩
  | [], rs, h1, h2 => by simp [Writer.appendList]
  | d :: ds, rs, h1, h2 => by
    have hlt : rs.length < M := by
      have : ds.length + 1 ≥ 1 := Nat.le_add_left 1 ds.length
      simp only [List.length_cons] at h2
      omega
    have hflag : decide (M ≤ rs.length) = false := by
      simp only [decide_eq_false_iff_not]
      omega
    have happ : Writer.append ⟨[(1, 1)], [(1, rs)], some 1, decide (M ≤ rs.length), M⟩ d
        = ⟨[(1, 1)], [(1, rs ++ [d])], some 1, decide (M ≤ rs.length + 1), M⟩ := by
      rw [hflag]
      simp [Writer.append, getSeg, getSeg.getSegAux, setSeg, setSeg.setSegAux]
    show Writer.appendList
        (Writer.append ⟨[(1, 1)], [(1, rs)], some 1, decide (M ≤ rs.length), M⟩ d) ds = _
    rw [happ]
    have hlen1 : 1 ≤ (rs ++ [d]).length := by simp
    have hlen2 : (rs ++ [d]).length + ds.length ≤ M := by
      simp only [List.length_append, List.length_singleton, List.length_cons,
        List.length_nil] at h2 ⊢
      omega
    have hfill := writer_fill M ds (rs ++ [d]) hlen1 hlen2
    rw [List.length_append, List.length_singleton] at hfill
    rw [hfill]
    simp only [List.append_assoc, List.singleton_append, List.length_cons,
      WriterState.mk.injEq, and_true, true_and]
    have harith : rs.length + 1 + ds.length = rs.length + (ds.length + 1) := by omega
    rw [harith]

theorem writer_rotate_append (M : Nat) (hM : 1 ≤ M) (rs : List Data)
    (hlen : rs.length = M) (d : Data) :
    Writer.append ⟨[(1, 1)], [(1, rs)], some 1, true, M⟩ d
      = ⟨[(1, 1), (2, 2)], [(1, rs), (2, [d])], some 2, decide (M ≤ 1), M⟩ := by
  have h1 : 1 ≤ rs.length := hlen ▸ hM
  have h2 : M ≤ rs.length := hlen.ge
  simp [Writer.append, Writer.set_current_log, logindexAppend, ensureSeg, keysOf,
    getSeg, getSeg.getSegAux, setSeg, setSeg.setSegAux, h1, h2]

/-- Claim C4: starting fresh with capacity `max_log_events ≥ 1`, after
exactly `max_log_events` appends the first segment holds exactly that many
records, the writer still targets segment 1 with the rotation deferred via
the `next_will_create_log` flag, and the next append lands as the first
record of segment 2 while segment 1 keeps all its records. -/
theorem writer_rotation_spec (M : Nat) (hM : 1 ≤ M) (ds : List Data)
    (hlen : ds.length = M) (d : Data) :
    getSeg (Writer.appendList (Writer.fresh M) ds) 1 = ds ∧
    (Writer.appendList (Writer.fresh M) ds).currentLog = some 1 ∧
    (Writer.appendList (Writer.fresh M) ds).nextWillCreateLog = true ∧
    getSeg (Writer.appendList (Writer.fresh M) (ds ++ [d])) 1 = ds ∧
    getSeg (Writer.appendList (Writer.fresh M) (ds ++ [d])) 2 = [d] ∧
    (Writer.appendList (Writer.fresh M) (ds ++ [d])).currentLog = some 2 := by
  cases ds with
  | nil => rw [List.length_nil] at hlen; omega
  | cons d0 rest =>
    have hfull : Writer.appendList (Writer.fresh M) (d0 :: rest)
        = ⟨[(1, 1)], [(1, d0 :: rest)], some 1, true, M⟩ := by
      show Writer.appendList (Writer.append (Writer.fresh M) d0) rest = _
      rw [writer_first_append]
      have h2 : (1 : Nat) + rest.length ≤ M := by
        rw [List.length_cons] at hlen
        omega
      have hfill := writer_fill M rest [d0] (by simp) (by simpa using h2)
      rw [List.length_singleton] at hfill
      rw [hfill]
      have hM1 : (1 : Nat) + rest.length = M := by
        rw [List.length_cons] at hlen
        omega
      rw [List.singleton_append, hM1]
      simp
    have hrot : Writer.appendList (Writer.fresh M) ((d0 :: rest) ++ [d])
        = ⟨[(1, 1), (2, 2)], [(1, d0 :: rest), (2, [d])], some 2, decide (M ≤ 1), M⟩ := by
      show (((d0 :: rest) ++ [d]).foldl Writer.append (Writer.fresh M)) = _
      rw [List.foldl_append]
      show Writer.append (Writer.appendList (Writer.fresh M) (d0 :: rest)) d = _
      rw [hfull]
      exact writer_rotate_append M hM (d0 :: rest) hlen d
    refine ⟨?_, ?_, ?_, ?_, ?_, ?_⟩
    · rw [hfull]; rfl
    · rw [hfull]
    · rw [hfull]
    · rw [hrot]; rfl
    · rw [hrot]; rfl
    · rw [hrot]

/-- Witness for claim C4: with capacity 2, after two appends segment 1 holds
both records and the rotation is pending; the third append becomes the
first record of segment 2. -/
theorem writer_rotation_spec_witness :
    getSeg (Writer.appendList (Writer.fresh 2) [10, 20]) 1 = [10, 20] ∧
    (Writer.appendList (Writer.fresh 2) [10, 20]).nextWillCreateLog = true ∧
    getSeg (Writer.appendList (Writer.fresh 2) [10, 20, 30]) 1 = [10, 20] ∧
    getSeg (Writer.appendList (Writer.fresh 2) [10, 20, 30]) 2 = [30] ∧
    (Writer.appendList (Writer.fresh 2) [10, 20, 30]).currentLog = some 2 := by
  have h := writer_rotation_spec 2 (by decide) [10, 20] (by decide) 30
  exact ⟨h.1, h.2.2.1, h.2.2.2.1, h.2.2.2.2.1, h.2.2.2.2.2⟩

/-- Claim C9: `delete(segment_number)` fails with in-use when the segment is
the current writer target or some registered reader's progress pointer
lies within it; deleting a missing segment fails with not-found; otherwise
it removes the segment file and its logindex entry, leaving all other
segments and logindex entries in place. -/
theorem writer_delete_spec (w : WriterState) (readers : List (String × Nat))
    (n : Nat) :
    (w.currentLog = some n → Writer.delete w readers n = .error .inUse) ∧
    (∀ r ∈ readers, r.2 = n → Writer.delete w readers n = .error .inUse) ∧
    (w.currentLog ≠ some n → (∀ r ∈ readers, r.2 ≠ n) → n ∉ keysOf w.segments →
      Writer.delete w readers n = .error .notFound) ∧
    (w.currentLog ≠ some n → (∀ r ∈ readers, r.2 ≠ n) → n ∈ keysOf w.segments →
      ∃ w2, Writer.delete w readers n = .ok w2 ∧
        n ∉ keysOf w2.segments ∧
        (∀ p ∈ w2.logindex, p.2 ≠ n) ∧
        (∀ p ∈ w.segments, p.1 ≠ n → p ∈ w2.segments) ∧
        (∀ p ∈ w.logindex, p.2 ≠ n → p ∈ w2.logindex)) := by
  refine ⟨?_, ?_, ?_, ?_⟩
  · intro hcur
    simp [Writer.delete, hcur]
  · intro r hr hrn
    have hany : readers.any (fun r => r.2 = n) = true := by
      rw [List.any_eq_true]
      exact ⟨r, hr, by simp [hrn]⟩
    simp [Writer.delete, hany]
  · intro hcur hrd hnk
    have hany : readers.any (fun r => r.2 = n) = false := by
      rw [List.any_eq_false]
      intro r hr
      simp [hrd r hr]
    simp [Writer.delete, hcur, hany, hnk]
  · intro hcur hrd hk
    have hany : readers.any (fun r => r.2 = n) = false := by
      rw [List.any_eq_false]
      intro r hr
      simp [hrd r hr]
    refine ⟨{ w with
        segments := w.segments.filter (fun p => p.1 ≠ n)
        logindex := w.logindex.filter (fun p => p.2 ≠ n) }, ?_, ?_, ?_, ?_, ?_⟩
    · simp [Writer.delete, hcur, hany, hk]
    · intro hc
      rw [keysOf] at hc
      obtain ⟨p, hpmem, hpfst⟩ := List.mem_map.mp hc
      have hne : decide (p.1 ≠ n) = true := (List.mem_filter.mp hpmem).2
      rw [decide_eq_true_eq] at hne
      exact hne hpfst
    · intro p hp
      have hne : decide (p.2 ≠ n) = true := (List.mem_filter.mp hp).2
      rwa [decide_eq_true_eq] at hne
    · intro p hp hne
      exact List.mem_filter.mpr ⟨hp, by simp [hne]⟩
    · intro p hp hne
      exact List.mem_filter.mpr ⟨hp, by simp [hne]⟩

/-- Witness for claim C9: a writer with segments 1 and 2, currently on
segment 2 with a reader inside segment 2: deleting 2 is in-use (current),
deleting 1 with a reader inside 1 is in-use, deleting 3 is not-found, and
deleting the fully consumed segment 1 removes it and its logindex entry. -/
theorem writer_delete_spec_witness :
    Writer.delete ⟨[(1, 1), (2, 2)], [(1, [5]), (2, [6])], some 2, false, 1⟩
        [("r", 2)] 2 = .error .inUse ∧
    Writer.delete ⟨[(1, 1), (2, 2)], [(1, [5]), (2, [6])], some 2, false, 1⟩
        [("r", 1)] 1 = .error .inUse ∧
    Writer.delete ⟨[(1, 1), (2, 2)], [(1, [5]), (2, [6])], some 2, false, 1⟩
        [("r", 2)] 3 = .error .notFound ∧
    Writer.delete ⟨[(1, 1), (2, 2)], [(1, [5]), (2, [6])], some 2, false, 1⟩
        [("r", 2)] 1 = .ok ⟨[(2, 2)], [(2, [6])], some 2, false, 1⟩ := by
  refine ⟨(writer_delete_spec _ _ 2).1 rfl,
    (writer_delete_spec _ [("r", 1)] 1).2.1 ("r", 1) (by decide) rfl,
    (writer_delete_spec _ _ 3).2.2.1 (by decide) (by decide) (by decide), ?_⟩
  obtain ⟨w2, h1, h2, h3, h4, h5⟩ :=
    (writer_delete_spec ⟨[(1, 1), (2, 2)], [(1, [5]), (2, [6])], some 2, false, 1⟩
      [("r", 2)] 1).2.2.2 (by decide) (by decide) (by decide)
  have hcalc : Writer.delete ⟨[(1, 1), (2, 2)], [(1, [5]), (2, [6])], some 2, false, 1⟩
      [("r", 2)] 1 = .ok ⟨[(2, 2)], [(2, [6])], some 2, false, 1⟩ := rfl
  exact hcalc
